import Mathlib

/-!
Verification of the face-abstraction core of Tehreer-Android
(`RenderableFace.cpp`, `ShapableFace.cpp`) against its specification.

The native-engine collaborators (FreeType, HarfBuzz) are abstracted as
oracle functions; stateful C++ code becomes explicit state passing, and
observable side effects (lock acquisition, cache access, engine queries,
native-handle teardown) are recorded as event traces so that ordering
properties can be stated and proved.
-/

namespace Tehreer

/-- Model of the record behind a non-null native `FT_Face` handle: its face
index and the design coordinates currently applied to it.  A nullable
`FT_Face` pointer is `Option FTFaceRec`. -/
structure FTFaceRec where
  face_index : Nat
  designCoords : List Int
deriving Repr, DecidableEq

/-- Modelled from the spec: the font-file collaborator, whose implementation
is not among the sources.  Per the external-interface section, it exposes
`createRenderableFace(faceIndex)` which "opens a native handle for the given
zero-based face index within a font file", and is reference counted through
retain and release.  `openFace` abstracts which handle (if any) opening a
given face index yields. -/
structure FontFile where
  openFace : Nat → Option FTFaceRec
  retainCount : Nat

/-- FontFile reference acquisition (collaborator interface). -/
def FontFile.retain (f : FontFile) : FontFile :=
  { f with retainCount := f.retainCount + 1 }

/-- Modelled from the spec: conversion of a design coordinate to the
engine's 16.16 fixed-point convention, "value × 65536, rounded toward
nearest" (`toF16Dot16` of `Convert.h` is not among the sources). -/
def toF16Dot16 (value : Rat) : Int :=
  (value * 65536 + 1 / 2).floor

/-- Model of `RenderableFace` (RenderableFace.cpp): the retained font-file
collaborator, the owned native face record, the stored variation-coordinate
vector (`none` until `setupCoordinates` runs), and the retain count. -/
structure RenderableFace where
  fontFile : FontFile
  ftFace : FTFaceRec
  coordinates : Option (List Rat)
  retainCount : Nat

/-- RenderableFace::create (RenderableFace.cpp, lines 34-41): a null handle
yields null; otherwise a new instance that retains the font file, holds the
handle, and starts with retain count 1 and no stored coordinates. -/
def RenderableFace.create (fontFile : FontFile) (ftFace : Option FTFaceRec) :
    Option RenderableFace :=
  match ftFace with
  | none => none
  | some f =>
      some { fontFile := fontFile.retain, ftFace := f
             coordinates := none, retainCount := 1 }

/-- RenderableFace::setupCoordinates (RenderableFace.cpp, lines 50-61):
stores the coordinate vector in `m_coordinates` and applies its 16.16
fixed-point conversion to the native handle via
`FT_Set_Var_Design_Coordinates`. -/
def RenderableFace.setupCoordinates (r : RenderableFace) (coordArray : List Rat) :
    RenderableFace :=
  { r with
    coordinates := some coordArray
    ftFace := { r.ftFace with designCoords := coordArray.map toF16Dot16 } }

/-- Modelled from the spec: `FontFile::createRenderableFace(faceIndex)`
(not among the sources) opens a native handle for the given face index and
wraps it through `RenderableFace.create`, which rejects a null handle. -/
def FontFile.createRenderableFace (f : FontFile) (faceIndex : Nat) :
    Option RenderableFace :=
  RenderableFace.create f (f.openFace faceIndex)

/-- RenderableFace::deriveVariation (RenderableFace.cpp, lines 75-85): asks
the font file for a new RenderableFace at the same face index; on failure
returns null, otherwise applies `setupCoordinates` to the new instance and
returns it.  The receiver is only read, never written. -/
def RenderableFace.deriveVariation (r : RenderableFace) (coordArray : List Rat) :
    Option RenderableFace :=
  match r.fontFile.createRenderableFace r.ftFace.face_index with
  | none => none
  | some derivedFace => some (derivedFace.setupCoordinates coordArray)

/-- The operations the sources perform on an already-constructed
RenderableFace instance: retain, release, deriving a variation (which only
reads the receiver), and locking or unlocking the global engine mutex
around it.  `setupCoordinates` is absent because the sources invoke it only
on a freshly created, not-yet-shared instance (RenderableFace.cpp, line 82). -/
inductive RFOp where
  | retainOp
  | releaseOp
  | deriveOp (coords : List Rat)
  | lockOp
  | unlockOp

/-- Effect of one instance-level operation on the receiver's state
(RenderableFace.cpp, lines 75-98): retain and release adjust the count;
deriveVariation, lock and unlock leave the receiver untouched. -/
def RenderableFace.applyOp (r : RenderableFace) : RFOp → RenderableFace
  | .retainOp => { r with retainCount := r.retainCount + 1 }
  | .releaseOp => { r with retainCount := r.retainCount - 1 }
  | .deriveOp _ => r
  | .lockOp => r
  | .unlockOp => r

/-- Events observable during RenderableFace teardown. -/
inductive TeardownEvent where
  | lockAcquire
  | faceDestroy
  | lockRelease
  | fontFileRelease
deriving Repr, DecidableEq

/-- World state threaded through the destructor: whether the global engine
mutex is held, and the trace of events, each recorded together with the
lock state in force when it happens. -/
structure TeardownWorld where
  lockHeld : Bool
  trace : List (TeardownEvent × Bool)

/-- Acquiring the global FreeType mutex. -/
def TeardownWorld.mutexLock (w : TeardownWorld) : TeardownWorld :=
  { lockHeld := true, trace := w.trace ++ [(.lockAcquire, w.lockHeld)] }

/-- Releasing the global FreeType mutex. -/
def TeardownWorld.mutexUnlock (w : TeardownWorld) : TeardownWorld :=
  { lockHeld := false, trace := w.trace ++ [(.lockRelease, w.lockHeld)] }

/-- Destroying the native face handle (`FT_Done_Face`). -/
def TeardownWorld.doneFace (w : TeardownWorld) : TeardownWorld :=
  { w with trace := w.trace ++ [(.faceDestroy, w.lockHeld)] }

/-- Releasing the retained font-file reference. -/
def TeardownWorld.releaseFontFile (w : TeardownWorld) : TeardownWorld :=
  { w with trace := w.trace ++ [(.fontFileRelease, w.lockHeld)] }

/-- RenderableFace::~RenderableFace (RenderableFace.cpp, lines 63-73) as it
is written: `mutex.lock()`, `FT_Done_Face(m_ftFace)`, `mutex.unlock()`,
then `m_fontFile.release()`. -/
def renderableFaceTeardown (w : TeardownWorld) : TeardownWorld :=
  w.mutexLock.doneFace.mutexUnlock.releaseFontFile

/-- Modelled from the spec: the AdvanceCache component (its implementation
is not among the sources).  Per the data model and component-design
sections it is an associative map from 16-bit glyph identifier to advance
value: `get` either returns a previously stored value or signals absent,
and `put` inserts.  The eviction policy is explicitly left open by the spec
("an implementation choice"), so the model keeps every inserted entry; no
claim settled here depends on eviction. -/
structure AdvanceCache where
  entries : Nat → Option Int

/-- Cache lookup: the stored value, or absent. -/
def AdvanceCache.get (c : AdvanceCache) (glyphID : Nat) : Option Int :=
  c.entries glyphID

/-- Cache insertion. -/
def AdvanceCache.put (c : AdvanceCache) (glyphID : Nat) (advance : Int) :
    AdvanceCache :=
  ⟨fun key => if key = glyphID then some advance else c.entries key⟩

/-- The empty cache. -/
def AdvanceCache.empty : AdvanceCache :=
  ⟨fun _ => none⟩

/-- Events observable during a shaping-callback invocation: acquiring and
releasing the RenderableFace lock (the global engine mutex), a cache
lookup recording whether it hit, an engine advance query
(`FT_Get_Advance` with `FT_LOAD_NO_SCALE`), and a cache insertion. -/
inductive FontCallbackEvent where
  | lockAcquire
  | lockRelease
  | cacheGet (glyphID : Nat) (hit : Bool)
  | engineQuery (glyphID : Nat)
  | cachePut (glyphID : Nat)
deriving Repr, DecidableEq

/-- The glyph_h_advance callback (ShapableFace.cpp, lines 118-142).
`engine` abstracts the engine's unscaled-advance query on the wrapped
face.  The code acquires the face lock, truncates the incoming 32-bit
glyph to `uint16_t`, consults the cache, and on a miss queries the engine
and inserts the result; the lock is released when the lambda returns.
Returns the advance, the resulting cache, and the event trace in the order
the code performs the steps. -/
def glyphAdvanceCallback (engine : Nat → Int) (cache : AdvanceCache)
    (glyph : Nat) : Int × AdvanceCache × List FontCallbackEvent :=
  let glyphID := glyph % 65536
  match cache.get glyphID with
  | some glyphAdvance =>
      (glyphAdvance, cache,
        [.lockAcquire, .cacheGet glyphID true, .lockRelease])
  | none =>
      let ftAdvance := engine glyphID
      (ftAdvance, cache.put glyphID ftAdvance,
        [.lockAcquire, .cacheGet glyphID false, .engineQuery glyphID,
         .cachePut glyphID, .lockRelease])

/-- The loop body of the glyph_h_advances callback (ShapableFace.cpp,
lines 162-181): for every entry of the strided glyph sequence, truncate to
`uint16_t`, write the cached advance on a hit, otherwise query the engine,
write the result and insert it into the cache.  Returns the list of
written advances, the final cache, and the loop's event trace. -/
def glyphAdvancesLoop (engine : Nat → Int) (glyphs : List Nat)
    (cache : AdvanceCache) : List Int × AdvanceCache × List FontCallbackEvent :=
  match glyphs with
  | [] => ([], cache, [])
  | glyph :: rest =>
      let glyphID := glyph % 65536
      match cache.get glyphID with
      | some glyphAdvance =>
          let next := glyphAdvancesLoop engine rest cache
          (glyphAdvance :: next.1, next.2.1, .cacheGet glyphID true :: next.2.2)
      | none =>
          let ftAdvance := engine glyphID
          let next := glyphAdvancesLoop engine rest (cache.put glyphID ftAdvance)
          (ftAdvance :: next.1, next.2.1,
            .cacheGet glyphID false :: .engineQuery glyphID ::
              .cachePut glyphID :: next.2.2)

/-- The glyph_h_advances callback (ShapableFace.cpp, lines 144-182): one
face-lock acquisition around the whole loop. -/
def glyphAdvancesCallback (engine : Nat → Int) (glyphs : List Nat)
    (cache : AdvanceCache) : List Int × AdvanceCache × List FontCallbackEvent :=
  let body := glyphAdvancesLoop engine glyphs cache
  (body.1, body.2.1, .lockAcquire :: (body.2.2 ++ [.lockRelease]))

/-- The value an advance lookup resolves to relative to a starting cache:
the cached value when present, otherwise the engine's unscaled advance. -/
def resolvedAdvance (engine : Nat → Int) (cache : AdvanceCache)
    (glyphID : Nat) : Int :=
  (cache.get glyphID).getD (engine glyphID)

/-- Relation between a starting cache and one evolved by the advance
callbacks: every entry is either unchanged, or was absent initially and
now holds the engine's advance for its key. -/
def CacheEvolved (engine : Nat → Int) (c0 c1 : AdvanceCache) : Prop :=
  ∀ k, c1.get k = c0.get k ∨ (c0.get k = none ∧ c1.get k = some (engine k))

/-- The loop body of the nominal_glyphs callback (ShapableFace.cpp, lines
73-92): `done` entries already resolved, `remaining` iterations left
(`done < count`).  `charIndex` abstracts the engine's character-to-glyph
query; the strided unicode input is the sequence `unicode`; the strided
glyph output buffer is the map `out`, where a slot keeps its incoming value
unless the loop writes it.  Stops without writing at the first code point
the engine maps to glyph 0. -/
def nominalGlyphsLoop (charIndex : Nat → Nat) (unicode : Nat → Nat)
    (done remaining : Nat) (out : Nat → Option Nat) :
    Nat × (Nat → Option Nat) :=
  match remaining with
  | 0 => (done, out)
  | r + 1 =>
      let glyphID := charIndex (unicode done)
      if glyphID = 0 then (done, out)
      else
        nominalGlyphsLoop charIndex unicode (done + 1) r
          (fun j => if j = done then some glyphID else out j)

/-- The nominal_glyphs callback (ShapableFace.cpp, lines 59-95): the loop
starting at entry 0, allowed `count` iterations; returns `done` and the
final output buffer. -/
def nominalGlyphsCallback (charIndex : Nat → Nat) (count : Nat)
    (unicode : Nat → Nat) (out : Nat → Option Nat) :
    Nat × (Nat → Option Nat) :=
  nominalGlyphsLoop charIndex unicode 0 count out

theorem applyOp_coordinates (r : RenderableFace) (op : RFOp) :
    (r.applyOp op).coordinates = r.coordinates := by
  cases op <;> rfl

theorem foldl_applyOp_coordinates (ops : List RFOp) (r : RenderableFace) :
    (List.foldl RenderableFace.applyOp r ops).coordinates = r.coordinates := by
  induction ops generalizing r with
  | nil => rfl
  | cons op rest ih => rw [List.foldl_cons, ih, applyOp_coordinates]

/-- C5: `RenderableFace::create` returns null exactly when the supplied
native face handle is null; for every non-null handle it returns a new
RenderableFace holding a retained reference to the font-file collaborator,
the handle itself, no stored coordinates, and retain count 1. -/
theorem renderableFace_create_spec (ff : FontFile) (fr : FTFaceRec) :
    RenderableFace.create ff none = none
    ∧ (∀ oh : Option FTFaceRec, (RenderableFace.create ff oh = none ↔ oh = none))
    ∧ RenderableFace.create ff (some fr) =
        some { fontFile := ff.retain, ftFace := fr
               coordinates := none, retainCount := 1 }
    ∧ (RenderableFace.create ff (some fr)).map (fun r => r.fontFile.retainCount)
        = some (ff.retainCount + 1) := by
  refine ⟨rfl, ?_, rfl, rfl⟩
  intro oh
  cases oh <;> simp [RenderableFace.create]

/-- C6: `RenderableFace::deriveVariation(c)` asks the font-file collaborator
to open a new handle at the receiver's face index; it returns null exactly
when that open fails, and otherwise returns the newly created RenderableFace
with `setupCoordinates(c)` applied: coordinates stored, fixed-point
conversion applied to the fresh handle, font file retained, retain count 1.
Both directions are unconditional: the whole result is the image of the
open's outcome.  The receiver itself is a pure input, so its handle and
coordinates are untouched. -/
theorem renderableFace_deriveVariation_spec (r : RenderableFace) (c : List Rat) :
    (r.deriveVariation c = none ↔ r.fontFile.openFace r.ftFace.face_index = none)
    ∧ r.deriveVariation c
        = (r.fontFile.openFace r.ftFace.face_index).map (fun fr =>
            { fontFile := r.fontFile.retain
              ftFace := { fr with designCoords := c.map toF16Dot16 }
              coordinates := some c
              retainCount := 1 }) := by
  cases hopen : r.fontFile.openFace r.ftFace.face_index with
  | none =>
    constructor
    · simp [RenderableFace.deriveVariation, FontFile.createRenderableFace, hopen,
        RenderableFace.create]
    · simp [RenderableFace.deriveVariation, FontFile.createRenderableFace, hopen,
        RenderableFace.create]
  | some fr =>
    constructor
    · simp [RenderableFace.deriveVariation, FontFile.createRenderableFace, hopen,
        RenderableFace.create]
    · simp [RenderableFace.deriveVariation, FontFile.createRenderableFace, hopen,
        RenderableFace.create, RenderableFace.setupCoordinates]

/-- C7: once `setupCoordinates` has stored a coordinate vector, no operation
the sources subsequently perform on the instance (retain, release,
deriveVariation, lock, unlock, in any sequence) changes the stored vector. -/
theorem renderableFace_coordinates_immutable (r : RenderableFace)
    (c : List Rat) (ops : List RFOp) :
    (List.foldl RenderableFace.applyOp (r.setupCoordinates c) ops).coordinates
      = some c := by
  rw [foldl_applyOp_coordinates]
  rfl

/-- C8: the destructor, run with the global engine lock free, performs
exactly this event sequence: acquire the lock, destroy the native face
handle (with the lock held), release the lock, and only then release the
font-file reference — the lock is not held at the font-file release. -/
theorem renderableFace_teardown_order (w : TeardownWorld)
    (hfree : w.lockHeld = false) :
    (renderableFaceTeardown w).trace =
      w.trace ++ [(.lockAcquire, false), (.faceDestroy, true),
                  (.lockRelease, true), (.fontFileRelease, false)] := by
  simp [renderableFaceTeardown, TeardownWorld.mutexLock, TeardownWorld.doneFace,
    TeardownWorld.mutexUnlock, TeardownWorld.releaseFontFile, hfree]

/-- C8 witness: teardown from the empty, unlocked world. -/
theorem renderableFace_teardown_order_witness :
    (renderableFaceTeardown { lockHeld := false, trace := [] }).trace =
      [] ++ [(.lockAcquire, false), (.faceDestroy, true),
             (.lockRelease, true), (.fontFileRelease, false)] :=
  renderableFace_teardown_order { lockHeld := false, trace := [] } rfl

theorem CacheEvolved.rfl (engine : Nat → Int) (c : AdvanceCache) :
    CacheEvolved engine c c :=
  fun _ => Or.inl (Eq.refl _)

theorem CacheEvolved.get_eq {engine : Nat → Int} {c0 c1 : AdvanceCache}
    (h : CacheEvolved engine c0 c1) (k : Nat) (hk : (c1.get k).isSome) :
    c1.get k = some (resolvedAdvance engine c0 k) := by
  rcases h k with heq | ⟨h0, h1⟩
  · rw [heq] at hk ⊢
    obtain ⟨v, hv⟩ := Option.isSome_iff_exists.mp hk
    rw [hv]
    simp [resolvedAdvance, hv]
  · rw [h1]
    simp [resolvedAdvance, h0]

theorem CacheEvolved.none_resolved {engine : Nat → Int} {c0 c1 : AdvanceCache}
    (h : CacheEvolved engine c0 c1) (k : Nat) (hk : c1.get k = none) :
    resolvedAdvance engine c0 k = engine k := by
  rcases h k with heq | ⟨h0, h1⟩
  · rw [heq] at hk
    simp [resolvedAdvance, hk]
  · rw [h1] at hk
    exact absurd hk (by simp)

theorem CacheEvolved.put_miss {engine : Nat → Int} {c0 c1 : AdvanceCache}
    (h : CacheEvolved engine c0 c1) (k : Nat) (hk : c1.get k = none) :
    CacheEvolved engine c0 (c1.put k (engine k)) := by
  intro key
  by_cases hkey : key = k
  · subst hkey
    rcases h key with heq | ⟨_, h1⟩
    · exact Or.inr ⟨heq ▸ hk, by simp [AdvanceCache.get, AdvanceCache.put]⟩
    · rw [h1] at hk
      exact absurd hk (by simp)
  · have : (c1.put k (engine k)).get key = c1.get key := by
      simp [AdvanceCache.get, AdvanceCache.put, hkey]
    rw [this]
    exact h key

theorem AdvanceCache.get_put_isSome (c : AdvanceCache) (j k : Nat) (v : Int)
    (hk : (c.get k).isSome) : ((c.put j v).get k).isSome := by
  by_cases hkey : k = j <;> simp [AdvanceCache.get, AdvanceCache.put, hkey] at hk ⊢
  exact hk

theorem nominalGlyphsLoop_spec (f u : Nat → Nat) :
    ∀ (remaining done : Nat) (out : Nat → Option Nat),
      done ≤ (nominalGlyphsLoop f u done remaining out).1
      ∧ (nominalGlyphsLoop f u done remaining out).1 ≤ done + remaining
      ∧ (∀ i, done ≤ i → i < (nominalGlyphsLoop f u done remaining out).1 →
          f (u i) ≠ 0 ∧ (nominalGlyphsLoop f u done remaining out).2 i = some (f (u i)))
      ∧ ((nominalGlyphsLoop f u done remaining out).1 < done + remaining →
          f (u (nominalGlyphsLoop f u done remaining out).1) = 0)
      ∧ (∀ j, j < done → (nominalGlyphsLoop f u done remaining out).2 j = out j)
      ∧ (∀ j, (nominalGlyphsLoop f u done remaining out).1 ≤ j →
          (nominalGlyphsLoop f u done remaining out).2 j = out j) := by
  intro remaining
  induction remaining with
  | zero =>
    intro done out
    have heq : nominalGlyphsLoop f u done 0 out = (done, out) := rfl
    rw [heq]
    exact ⟨Nat.le_refl _, by omega, fun i h1 h2 => absurd h2 (by omega),
      by omega, fun j _ => rfl, fun j _ => rfl⟩
  | succ r ih =>
    intro done out
    by_cases hz : f (u done) = 0
    · have heq : nominalGlyphsLoop f u done (r + 1) out = (done, out) := by
        simp only [nominalGlyphsLoop]
        rw [if_pos hz]
      rw [heq]
      exact ⟨Nat.le_refl _, by omega, fun i h1 h2 => absurd h2 (by omega),
        fun _ => hz, fun j _ => rfl, fun j _ => rfl⟩
    · obtain ⟨ih1, ih2, ih3, ih4, ih5, ih6⟩ :=
        ih (done + 1) (fun j => if j = done then some (f (u done)) else out j)
      have heq : nominalGlyphsLoop f u done (r + 1) out
          = nominalGlyphsLoop f u (done + 1) r
              (fun j => if j = done then some (f (u done)) else out j) := by
        simp only [nominalGlyphsLoop]
        rw [if_neg hz]
      rw [heq]
      refine ⟨by omega, by omega, ?_, fun hlt => ih4 (by omega), ?_, ?_⟩
      · intro i h1 h2
        by_cases hi : i = done
        · subst hi
          refine ⟨hz, ?_⟩
          rw [ih5 i (by omega)]
          simp
        · exact ih3 i (by omega) h2
      · intro j hj
        rw [ih5 j (by omega)]
        simp [show j ≠ done by omega]
      · intro j hj
        rw [ih6 j hj]
        simp [show j ≠ done by omega]

/-- C1: for every strided input sequence, unconditionally: the returned
count never exceeds the requested count; every position below the count
holds `some (charIndex (unicode i))` with a nonzero glyph; when the count
falls short of the requested count, the entry at the count is exactly one
the engine maps to glyph 0; and the output slot at the returned count and
every subsequent slot keeps its incoming value (unwritten) — including
the case where the very first code point is unmapped and the count is 0,
where every slot is untouched. -/
theorem nominalGlyphs_batch_spec (f : Nat → Nat) (count : Nat) (u : Nat → Nat)
    (out : Nat → Option Nat) :
    (nominalGlyphsCallback f count u out).1 ≤ count
    ∧ (∀ i, i < (nominalGlyphsCallback f count u out).1 →
        f (u i) ≠ 0 ∧ (nominalGlyphsCallback f count u out).2 i = some (f (u i)))
    ∧ ((nominalGlyphsCallback f count u out).1 < count →
        f (u (nominalGlyphsCallback f count u out).1) = 0)
    ∧ (∀ j, (nominalGlyphsCallback f count u out).1 ≤ j →
        (nominalGlyphsCallback f count u out).2 j = out j) := by
  obtain ⟨h1, h2, h3, h4, h5, h6⟩ := nominalGlyphsLoop_spec f u count 0 out
  exact ⟨by simpa using h2, fun i hi => h3 i (Nat.zero_le i) hi,
    fun hlt => h4 (by simpa using hlt), fun j hj => h6 j hj⟩

/-- C3 counterexample: a cache already holding glyph 5 with advance 100.
The callback returns the cached value, yet its event trace still contains
a lock acquisition — indeed the lock acquisition is the very first event,
before the cache is consulted — refuting "only on a miss does it lock the
RenderableFace". -/
theorem singleAdvance_locks_even_on_hit :
    ((AdvanceCache.empty.put 5 100).get 5).isSome = true
    ∧ (glyphAdvanceCallback (fun _ => 0) (AdvanceCache.empty.put 5 100) 5).1 = 100
    ∧ FontCallbackEvent.lockAcquire ∈
        (glyphAdvanceCallback (fun _ => 0) (AdvanceCache.empty.put 5 100) 5).2.2
    ∧ (glyphAdvanceCallback (fun _ => 0) (AdvanceCache.empty.put 5 100) 5).2.2.head?
        = some FontCallbackEvent.lockAcquire := by
  refine ⟨by decide, by decide, ?_, by decide⟩
  decide

/-- C3 amended: the single horizontal-advance callback acquires the
RenderableFace lock unconditionally before consulting the cache; it then
returns the cached value on a hit (leaving the cache unchanged), and only
on a miss queries the engine for the unscaled advance, stores that value
in the cache, and returns it; the lock is released at the end of the
callback in both paths. -/
theorem glyphAdvance_single_spec (engine : Nat → Int) (cache : AdvanceCache)
    (glyph : Nat) :
    (glyphAdvanceCallback engine cache glyph).1
        = resolvedAdvance engine cache (glyph % 65536)
    ∧ (glyphAdvanceCallback engine cache glyph).2.1
        = (if (cache.get (glyph % 65536)).isSome then cache
           else cache.put (glyph % 65536) (engine (glyph % 65536)))
    ∧ (glyphAdvanceCallback engine cache glyph).2.2
        = FontCallbackEvent.lockAcquire
            :: FontCallbackEvent.cacheGet (glyph % 65536)
                (cache.get (glyph % 65536)).isSome
            :: ((if (cache.get (glyph % 65536)).isSome
                 then ([] : List FontCallbackEvent)
                 else [FontCallbackEvent.engineQuery (glyph % 65536),
                       FontCallbackEvent.cachePut (glyph % 65536)])
              ++ [FontCallbackEvent.lockRelease]) := by
  cases hget : cache.get (glyph % 65536) <;>
    simp [glyphAdvanceCallback, resolvedAdvance, hget]

/-- C9: in both advance callbacks the incoming glyph identifier is
truncated to its low 16 bits before every cache and engine access: two
identifiers congruent modulo 2^16 produce identical results (value, cache
and trace) in the single and in the batch callback, and after a single
lookup of the first identifier the cache holds the returned advance under
the shared truncated key, so the second identifier hits the same entry. -/
theorem glyphAdvance_truncation (engine : Nat → Int) (cache : AdvanceCache)
    (g1 g2 : Nat) (rest : List Nat) (h : g1 % 65536 = g2 % 65536) :
    glyphAdvanceCallback engine cache g1 = glyphAdvanceCallback engine cache g2
    ∧ glyphAdvancesCallback engine (g1 :: rest) cache
        = glyphAdvancesCallback engine (g2 :: rest) cache
    ∧ (glyphAdvanceCallback engine cache g1).2.1.get (g2 % 65536)
        = some (glyphAdvanceCallback engine cache g1).1 := by
  refine ⟨?_, ?_, ?_⟩
  · simp only [glyphAdvanceCallback, h]
  · simp only [glyphAdvancesCallback, glyphAdvancesLoop, h]
  · rw [← h]
    cases hget : cache.entries (g1 % 65536) <;>
      simp [glyphAdvanceCallback, AdvanceCache.get, AdvanceCache.put, hget]

/-- Sample engine advance oracle. -/
def sampleEngine : Nat → Int := fun g => (g : Int) * 10

theorem glyphAdvancesLoop_spec (engine : Nat → Int) (c0 : AdvanceCache) :
    ∀ (glyphs : List Nat) (c1 : AdvanceCache), CacheEvolved engine c0 c1 →
      (glyphAdvancesLoop engine glyphs c1).1.length = glyphs.length
      ∧ (∀ i, i < glyphs.length →
          (glyphAdvancesLoop engine glyphs c1).1.getD i 0
            = resolvedAdvance engine c0 (glyphs.getD i 0 % 65536))
      ∧ CacheEvolved engine c0 (glyphAdvancesLoop engine glyphs c1).2.1
      ∧ (∀ k, (c1.get k).isSome →
          ((glyphAdvancesLoop engine glyphs c1).2.1.get k).isSome)
      ∧ (∀ g, g ∈ glyphs →
          ((glyphAdvancesLoop engine glyphs c1).2.1.get (g % 65536)).isSome)
      ∧ (glyphAdvancesLoop engine glyphs c1).2.2.count
          FontCallbackEvent.lockAcquire = 0
      ∧ (glyphAdvancesLoop engine glyphs c1).2.2.count
          FontCallbackEvent.lockRelease = 0 := by
  intro glyphs
  induction glyphs with
  | nil =>
    intro c1 hev
    have heq : glyphAdvancesLoop engine [] c1 = ([], c1, []) := rfl
    rw [heq]
    exact ⟨rfl, fun i hi => absurd hi (by simp), hev, fun k hk => hk,
      fun g hg => absurd hg (by simp), rfl, rfl⟩
  | cons g rest ih =>
    intro c1 hev
    cases hget : c1.get (g % 65536) with
    | some a =>
      obtain ⟨ih1, ih2, ih3, ih4, ih5, ih6, ih7⟩ := ih c1 hev
      have heq : glyphAdvancesLoop engine (g :: rest) c1
          = (a :: (glyphAdvancesLoop engine rest c1).1,
             (glyphAdvancesLoop engine rest c1).2.1,
             FontCallbackEvent.cacheGet (g % 65536) true
               :: (glyphAdvancesLoop engine rest c1).2.2) := by
        simp only [glyphAdvancesLoop, hget]
      rw [heq]
      refine ⟨by simp [ih1], ?_, ih3, ih4, ?_, ?_, ?_⟩
      · intro i hi
        cases i with
        | zero =>
          simp only [List.getD_cons_zero]
          have hsome : (c1.get (g % 65536)).isSome := by rw [hget]; rfl
          have := CacheEvolved.get_eq hev (g % 65536) hsome
          rw [hget] at this
          exact (Option.some.inj this)
        | succ n =>
          simp only [List.getD_cons_succ]
          exact ih2 n (by simpa using hi)
      · intro g2 hg2
        rcases List.mem_cons.mp hg2 with hgg | hmem
        · subst hgg
          exact ih4 (g2 % 65536) (by rw [hget]; rfl)
        · exact ih5 g2 hmem
      · simp [List.count_cons, ih6]
      · simp [List.count_cons, ih7]
    | none =>
      have hev2 := CacheEvolved.put_miss hev (g % 65536) hget
      obtain ⟨ih1, ih2, ih3, ih4, ih5, ih6, ih7⟩ :=
        ih (c1.put (g % 65536) (engine (g % 65536))) hev2
      have heq : glyphAdvancesLoop engine (g :: rest) c1
          = (engine (g % 65536)
               :: (glyphAdvancesLoop engine rest
                    (c1.put (g % 65536) (engine (g % 65536)))).1,
             (glyphAdvancesLoop engine rest
               (c1.put (g % 65536) (engine (g % 65536)))).2.1,
             FontCallbackEvent.cacheGet (g % 65536) false
               :: FontCallbackEvent.engineQuery (g % 65536)
               :: FontCallbackEvent.cachePut (g % 65536)
               :: (glyphAdvancesLoop engine rest
                    (c1.put (g % 65536) (engine (g % 65536)))).2.2) := by
        simp only [glyphAdvancesLoop, hget]
      rw [heq]
      refine ⟨by simp [ih1], ?_, ih3, ?_, ?_, ?_, ?_⟩
      · intro i hi
        cases i with
        | zero =>
          simp only [List.getD_cons_zero]
          exact (CacheEvolved.none_resolved hev (g % 65536) hget).symm
        | succ n =>
          simp only [List.getD_cons_succ]
          exact ih2 n (by simpa using hi)
      · intro k hk
        exact ih4 k (AdvanceCache.get_put_isSome c1 (g % 65536) k
          (engine (g % 65536)) hk)
      · intro g2 hg2
        rcases List.mem_cons.mp hg2 with hgg | hmem
        · subst hgg
          exact ih4 (g2 % 65536) (by simp [AdvanceCache.get, AdvanceCache.put])
        · exact ih5 g2 hmem
      · simp [List.count_cons, ih6]
      · simp [List.count_cons, ih7]

/-- C2: the batch horizontal-advance callback writes all n output slots (it
never short-circuits): the output has one advance per input entry, each
equal to the initially cached value for the entry's truncated id when
present and to the engine's unscaled advance otherwise; after the batch the
cache holds an entry for every processed id; and the whole batch happens
under a single acquisition of the global engine lock (exactly one acquire
event, opening the trace, and one release event, closing it). -/
theorem glyphAdvances_batch_spec (engine : Nat → Int) (glyphs : List Nat)
    (cache : AdvanceCache) (i : Nat) (hi : i < glyphs.length) :
    (glyphAdvancesCallback engine glyphs cache).1.length = glyphs.length
    ∧ (glyphAdvancesCallback engine glyphs cache).1.getD i 0
        = resolvedAdvance engine cache (glyphs.getD i 0 % 65536)
    ∧ (glyphAdvancesCallback engine glyphs cache).2.1.get
        (glyphs.getD i 0 % 65536)
        = some (resolvedAdvance engine cache (glyphs.getD i 0 % 65536))
    ∧ (glyphAdvancesCallback engine glyphs cache).2.2.count
        FontCallbackEvent.lockAcquire = 1
    ∧ (glyphAdvancesCallback engine glyphs cache).2.2.count
        FontCallbackEvent.lockRelease = 1
    ∧ (glyphAdvancesCallback engine glyphs cache).2.2.head?
        = some FontCallbackEvent.lockAcquire
    ∧ (glyphAdvancesCallback engine glyphs cache).2.2.getLast?
        = some FontCallbackEvent.lockRelease := by
  obtain ⟨h1, h2, h3, h4, h5, h6, h7⟩ :=
    glyphAdvancesLoop_spec engine cache glyphs cache (CacheEvolved.rfl engine cache)
  have heq : glyphAdvancesCallback engine glyphs cache
      = ((glyphAdvancesLoop engine glyphs cache).1,
         (glyphAdvancesLoop engine glyphs cache).2.1,
         FontCallbackEvent.lockAcquire
           :: ((glyphAdvancesLoop engine glyphs cache).2.2
             ++ [FontCallbackEvent.lockRelease])) := rfl
  rw [heq]
  have hmem : glyphs.getD i 0 ∈ glyphs := by
    rw [List.getD_eq_getElem glyphs 0 hi]
    exact List.getElem_mem hi
  refine ⟨h1, h2 i hi, ?_, ?_, ?_, List.head?_cons, ?_⟩
  · exact CacheEvolved.get_eq h3 (glyphs.getD i 0 % 65536)
      (h5 (glyphs.getD i 0) hmem)
  · simp [List.count_cons, List.count_append, h6]
  · simp [List.count_cons, List.count_append, h7]
  · rw [show FontCallbackEvent.lockAcquire
          :: ((glyphAdvancesLoop engine glyphs cache).2.2
            ++ [FontCallbackEvent.lockRelease])
        = (FontCallbackEvent.lockAcquire
            :: (glyphAdvancesLoop engine glyphs cache).2.2)
          ++ [FontCallbackEvent.lockRelease] from rfl]
    exact List.getLast?_concat _

/-- Sample pre-loaded cache: glyph ids 2 and 4 hold advances 700 and 900. -/
def sampleCache : AdvanceCache :=
  (AdvanceCache.empty.put 2 700).put 4 900

/-- C2 witness: the five-glyph batch over ids 1..5 with ids 2 and 4
pre-cached, instantiated at entry 3 (the pre-cached id 4). -/
theorem glyphAdvances_batch_spec_witness :
    3 < ([1, 2, 3, 4, 5] : List Nat).length
    ∧ ((glyphAdvancesCallback sampleEngine [1, 2, 3, 4, 5] sampleCache).1.length
          = ([1, 2, 3, 4, 5] : List Nat).length
        ∧ (glyphAdvancesCallback sampleEngine [1, 2, 3, 4, 5] sampleCache).1.getD 3 0
            = resolvedAdvance sampleEngine sampleCache
                (([1, 2, 3, 4, 5] : List Nat).getD 3 0 % 65536)
        ∧ (glyphAdvancesCallback sampleEngine [1, 2, 3, 4, 5] sampleCache).2.1.get
            (([1, 2, 3, 4, 5] : List Nat).getD 3 0 % 65536)
            = some (resolvedAdvance sampleEngine sampleCache
                (([1, 2, 3, 4, 5] : List Nat).getD 3 0 % 65536))
        ∧ (glyphAdvancesCallback sampleEngine [1, 2, 3, 4, 5] sampleCache).2.2.count
            FontCallbackEvent.lockAcquire = 1
        ∧ (glyphAdvancesCallback sampleEngine [1, 2, 3, 4, 5] sampleCache).2.2.count
            FontCallbackEvent.lockRelease = 1
        ∧ (glyphAdvancesCallback sampleEngine [1, 2, 3, 4, 5] sampleCache).2.2.head?
            = some FontCallbackEvent.lockAcquire
        ∧ (glyphAdvancesCallback sampleEngine [1, 2, 3, 4, 5] sampleCache).2.2.getLast?
            = some FontCallbackEvent.lockRelease) :=
  ⟨by decide,
    glyphAdvances_batch_spec sampleEngine [1, 2, 3, 4, 5] sampleCache 3 (by decide)⟩

/-- C9 witness: 5 and 65541 are congruent modulo 2^16 and behave
identically; after looking up 5, the key 65541 % 65536 hits. -/
theorem glyphAdvance_truncation_witness :
    5 % 65536 = 65541 % 65536
    ∧ (glyphAdvanceCallback sampleEngine AdvanceCache.empty 5
        = glyphAdvanceCallback sampleEngine AdvanceCache.empty 65541
      ∧ glyphAdvancesCallback sampleEngine (5 :: [7]) AdvanceCache.empty
          = glyphAdvancesCallback sampleEngine (65541 :: [7]) AdvanceCache.empty
      ∧ (glyphAdvanceCallback sampleEngine AdvanceCache.empty 5).2.1.get (65541 % 65536)
          = some (glyphAdvanceCallback sampleEngine AdvanceCache.empty 5).1) :=
  ⟨by decide,
    glyphAdvance_truncation sampleEngine AdvanceCache.empty 5 65541 [7] (by decide)⟩

/-- Model of one ShapableFace object (ShapableFace.cpp).  Heap references
are ids.  `rootFace` models `m_rootFace` (none for a face built by
`create`); `renderableFace` is the id of the wrapped RenderableFace;
`cacheId` is the identity of the owned AdvanceCache; `tableSource`
identifies the shaping-engine table data backing `m_hbFont`
(`hb_font_create_sub_font` shares the parent font's table data, while
`hb_face_create_for_tables` builds fresh data from the wrapped face);
`fontContext` is the context pointer installed by `hb_font_set_funcs`,
which the callbacks dereference to pick the RenderableFace and cache they
resolve against; `isSubFont` records which of the two hb constructions
produced the font. -/
structure SFace where
  rootFace : Option Nat
  renderableFace : Nat
  cacheId : Nat
  tableSource : Nat
  fontContext : Nat
  isSubFont : Bool
  retainCount : Nat
deriving Repr, DecidableEq

/-- Heap of ShapableFace objects with fresh-id counters for faces and
caches. -/
structure SFHeap where
  faces : Nat → Option SFace
  nextFaceId : Nat
  nextCacheId : Nat

/-- ShapableFace::create together with the root constructor
(ShapableFace.cpp, lines 194-243): a brand-new face with no root, a fresh
AdvanceCache, table data built from its own RenderableFace, and itself as
the callback context. -/
def SFHeap.createFace (h : SFHeap) (renderableId : Nat) : SFHeap × Nat :=
  let newId := h.nextFaceId
  let face : SFace :=
    { rootFace := none, renderableFace := renderableId
      cacheId := h.nextCacheId, tableSource := newId, fontContext := newId
      isSubFont := false, retainCount := 1 }
  ({ faces := fun k => if k = newId then some face else h.faces k
     nextFaceId := newId + 1, nextCacheId := h.nextCacheId + 1 }, newId)

/-- The derived-face constructor body (ShapableFace.cpp, lines 245-259)
once parent and root are dereferenced: the new face records the resolved
root (`parent.m_rootFace ?: &parent`), wraps the given RenderableFace,
owns a fresh AdvanceCache, shares the root font's table data through
`hb_font_create_sub_font`, installs itself as callback context, and the
root's retain count is bumped (`m_rootFace = &rootFace->retain()`). -/
def SFHeap.deriveCore (h : SFHeap) (rootId renderableId : Nat) (root : SFace) :
    SFHeap × Nat :=
  let newId := h.nextFaceId
  let face : SFace :=
    { rootFace := some rootId, renderableFace := renderableId
      cacheId := h.nextCacheId, tableSource := root.tableSource
      fontContext := newId, isSubFont := true, retainCount := 1 }
  ({ faces := fun k =>
       if k = newId then some face
       else if k = rootId then
         some { root with retainCount := root.retainCount + 1 }
       else h.faces k
     nextFaceId := newId + 1, nextCacheId := h.nextCacheId + 1 }, newId)

/-- ShapableFace::deriveVariation (ShapableFace.cpp, lines 292-296):
dereference the parent, resolve its root (the parent itself when it has
none), and build the derived face.  The lookups model pointer dereference;
on a valid heap they cannot fail. -/
def SFHeap.deriveVariation (h : SFHeap) (parentId renderableId : Nat) :
    Option (SFHeap × Nat) :=
  (h.faces parentId).bind fun parent =>
    (h.faces (parent.rootFace.getD parentId)).map fun root =>
      h.deriveCore (parent.rootFace.getD parentId) renderableId root

/-- Heap construction steps: creating a fresh ShapableFace or deriving a
variation sub-face from an existing one. -/
inductive SFOp where
  | createOp (renderableId : Nat)
  | deriveOp (parentId renderableId : Nat)

/-- Applying one construction step; a failing dereference leaves the heap
unchanged. -/
def SFHeap.applyOp (h : SFHeap) : SFOp → SFHeap
  | .createOp rid => (h.createFace rid).1
  | .deriveOp pid rid =>
      match h.deriveVariation pid rid with
      | none => h
      | some res => res.1

/-- The empty heap. -/
def SFHeap.emptyHeap : SFHeap :=
  { faces := fun _ => none, nextFaceId := 0, nextCacheId := 0 }

/-- Running a sequence of construction steps from the empty heap. -/
def SFHeap.run (ops : List SFOp) : SFHeap :=
  List.foldl SFHeap.applyOp SFHeap.emptyHeap ops

/-- Every allocated id is below the fresh-id counter. -/
def SFHeap.WF (h : SFHeap) : Prop :=
  ∀ id, h.nextFaceId ≤ id → h.faces id = none

/-- Every stored root reference points at a live face that is itself
non-derived (its own root pointer is null): root chains have depth at most
one. -/
def SFHeap.RootsAreBase (h : SFHeap) : Prop :=
  ∀ id f rid, h.faces id = some f → f.rootFace = some rid →
    ∃ rf, h.faces rid = some rf ∧ rf.rootFace = none

theorem createFace_faces (h : SFHeap) (rid k : Nat) :
    (h.createFace rid).1.faces k
      = if k = h.nextFaceId then
          some { rootFace := none, renderableFace := rid
                 cacheId := h.nextCacheId, tableSource := h.nextFaceId
                 fontContext := h.nextFaceId, isSubFont := false
                 retainCount := 1 }
        else h.faces k := rfl

theorem createFace_nextFaceId (h : SFHeap) (rid : Nat) :
    (h.createFace rid).1.nextFaceId = h.nextFaceId + 1 := rfl

theorem deriveCore_faces (h : SFHeap) (rootId rid : Nat) (root : SFace) (k : Nat) :
    (h.deriveCore rootId rid root).1.faces k
      = if k = h.nextFaceId then
          some { rootFace := some rootId, renderableFace := rid
                 cacheId := h.nextCacheId, tableSource := root.tableSource
                 fontContext := h.nextFaceId, isSubFont := true
                 retainCount := 1 }
        else if k = rootId then
          some { root with retainCount := root.retainCount + 1 }
        else h.faces k := rfl

theorem deriveCore_nextFaceId (h : SFHeap) (rootId rid : Nat) (root : SFace) :
    (h.deriveCore rootId rid root).1.nextFaceId = h.nextFaceId + 1 := rfl

theorem heap_root_is_base (h : SFHeap) (pid : Nat) (parent root : SFace)
    (hp : h.faces pid = some parent)
    (hr : h.faces (parent.rootFace.getD pid) = some root)
    (hrb : h.RootsAreBase) : root.rootFace = none := by
  cases hpr : parent.rootFace with
  | none =>
    rw [hpr, Option.getD_none, hp] at hr
    rw [← Option.some.inj hr]
    exact hpr
  | some r0 =>
    rw [hpr, Option.getD_some] at hr
    obtain ⟨rf, hrf, hbase⟩ := hrb pid parent r0 hp hpr
    rw [hrf] at hr
    exact (Option.some.inj hr) ▸ hbase

theorem heap_live_id_lt (h : SFHeap) (id : Nat) (f : SFace)
    (hf : h.faces id = some f) (hwf : h.WF) : id < h.nextFaceId := by
  by_contra hge
  rw [hwf id (by omega)] at hf
  exact Option.noConfusion hf

/-- C4: `deriveVariation` on a ShapableFace with a valid parent produces a
new face whose shaping-engine font is a sub-font sharing the table data of
the parent's root — of the parent itself when the parent has no root —
whose callback context is the new face itself, wrapping the supplied
RenderableFace and an AdvanceCache distinct from every existing face's
cache, recording the resolved root as its root, and bumping that root's
retain count. -/
theorem shapableFace_deriveVariation_spec (h : SFHeap)
    (parentId renderableId : Nat) (parent root : SFace)
    (hp : h.faces parentId = some parent)
    (hr : h.faces (parent.rootFace.getD parentId) = some root)
    (hwf : h.WF)
    (hcache : ∀ id f, h.faces id = some f → f.cacheId < h.nextCacheId) :
    ∃ h2 newId face,
      h.deriveVariation parentId renderableId = some (h2, newId)
      ∧ h2.faces newId = some face
      ∧ face.isSubFont = true
      ∧ face.tableSource = root.tableSource
      ∧ (parent.rootFace = none → face.tableSource = parent.tableSource)
      ∧ face.fontContext = newId
      ∧ face.renderableFace = renderableId
      ∧ (∀ id f, h.faces id = some f → face.cacheId ≠ f.cacheId)
      ∧ face.rootFace = some (parent.rootFace.getD parentId)
      ∧ h2.faces (parent.rootFace.getD parentId)
          = some { root with retainCount := root.retainCount + 1 } := by
  have hrootlt : parent.rootFace.getD parentId < h.nextFaceId :=
    heap_live_id_lt h _ root hr hwf
  refine ⟨(h.deriveCore (parent.rootFace.getD parentId) renderableId root).1,
    h.nextFaceId,
    { rootFace := some (parent.rootFace.getD parentId)
      renderableFace := renderableId
      cacheId := h.nextCacheId
      tableSource := root.tableSource
      fontContext := h.nextFaceId
      isSubFont := true
      retainCount := 1 },
    ?_, ?_, rfl, rfl, ?_, rfl, rfl, ?_, rfl, ?_⟩
  · simp [SFHeap.deriveVariation, hp, hr, SFHeap.deriveCore]
  · rw [deriveCore_faces, if_pos rfl]
  · intro hnone
    rw [hnone, Option.getD_none, hp] at hr
    rw [← Option.some.inj hr]
  · intro id f hf
    have := hcache id f hf
    simp only []
    omega
  · rw [deriveCore_faces, if_neg (by omega), if_pos rfl]

/-- A concrete heap holding one base face built over RenderableFace id 3. -/
def sampleHeap : SFHeap := (SFHeap.emptyHeap.createFace 3).1

/-- The base face living at id 0 of `sampleHeap`. -/
def sampleBaseFace : SFace :=
  { rootFace := none, renderableFace := 3, cacheId := 0, tableSource := 0
    fontContext := 0, isSubFont := false, retainCount := 1 }

/-- C4 witness: deriving from the base face of the one-face heap. -/
theorem shapableFace_deriveVariation_witness :
    sampleHeap.faces 0 = some sampleBaseFace
    ∧ sampleHeap.faces (sampleBaseFace.rootFace.getD 0) = some sampleBaseFace
    ∧ ∃ h2 newId face,
        sampleHeap.deriveVariation 0 7 = some (h2, newId)
        ∧ h2.faces newId = some face
        ∧ face.isSubFont = true
        ∧ face.tableSource = sampleBaseFace.tableSource
        ∧ (sampleBaseFace.rootFace = none →
            face.tableSource = sampleBaseFace.tableSource)
        ∧ face.fontContext = newId
        ∧ face.renderableFace = 7
        ∧ (∀ id f, sampleHeap.faces id = some f → face.cacheId ≠ f.cacheId)
        ∧ face.rootFace = some (sampleBaseFace.rootFace.getD 0)
        ∧ h2.faces (sampleBaseFace.rootFace.getD 0)
            = some { sampleBaseFace with
                      retainCount := sampleBaseFace.retainCount + 1 } := by
  refine ⟨rfl, rfl, ?_⟩
  refine shapableFace_deriveVariation_spec sampleHeap 0 7
    sampleBaseFace sampleBaseFace rfl rfl ?_ ?_
  · intro id hid
    have hid2 : 1 ≤ id := hid
    rw [show sampleHeap.faces id
        = if id = 0 then some sampleBaseFace else none from rfl]
    rw [if_neg (by omega)]
  · intro id f hf
    by_cases h0 : id = 0
    · subst h0
      have hfe : f = sampleBaseFace := Option.some.inj hf.symm
      rw [hfe]
      exact Nat.zero_lt_one
    · rw [show sampleHeap.faces id
          = if id = 0 then some sampleBaseFace else none from rfl,
        if_neg h0] at hf
      exact Option.noConfusion hf

theorem createFace_preserves (h : SFHeap) (rid : Nat)
    (hwf : h.WF) (hrb : h.RootsAreBase) :
    (h.createFace rid).1.WF ∧ (h.createFace rid).1.RootsAreBase := by
  constructor
  · intro id hid
    have hid2 : h.nextFaceId + 1 ≤ id := hid
    rw [createFace_faces, if_neg (by omega)]
    exact hwf id (by omega)
  · intro id f r2 hfaces hroot
    rw [createFace_faces] at hfaces
    by_cases hid : id = h.nextFaceId
    · rw [if_pos hid] at hfaces
      rw [← Option.some.inj hfaces] at hroot
      exact Option.noConfusion hroot
    · rw [if_neg hid] at hfaces
      obtain ⟨rf, hrf, hbase⟩ := hrb id f r2 hfaces hroot
      have hr2lt : r2 < h.nextFaceId := heap_live_id_lt h r2 rf hrf hwf
      exact ⟨rf, by rw [createFace_faces, if_neg (by omega)]; exact hrf, hbase⟩

theorem deriveCore_preserves (h : SFHeap) (pid rid : Nat) (parent root : SFace)
    (hp : h.faces pid = some parent)
    (hr : h.faces (parent.rootFace.getD pid) = some root)
    (hwf : h.WF) (hrb : h.RootsAreBase) :
    (h.deriveCore (parent.rootFace.getD pid) rid root).1.WF
    ∧ (h.deriveCore (parent.rootFace.getD pid) rid root).1.RootsAreBase := by
  have hrootlt : parent.rootFace.getD pid < h.nextFaceId :=
    heap_live_id_lt h _ root hr hwf
  have hrootbase : root.rootFace = none := heap_root_is_base h pid parent root hp hr hrb
  constructor
  · intro id hid
    have hid2 : h.nextFaceId + 1 ≤ id := hid
    rw [deriveCore_faces, if_neg (by omega), if_neg (by omega)]
    exact hwf id (by omega)
  · intro id f r2 hfaces hroot
    rw [deriveCore_faces] at hfaces
    by_cases hid : id = h.nextFaceId
    · rw [if_pos hid] at hfaces
      rw [← Option.some.inj hfaces] at hroot
      have hr2 : r2 = parent.rootFace.getD pid := (Option.some.inj hroot).symm
      subst hr2
      refine ⟨{ root with retainCount := root.retainCount + 1 }, ?_, hrootbase⟩
      rw [deriveCore_faces, if_neg (by omega), if_pos rfl]
    · rw [if_neg hid] at hfaces
      by_cases hidr : id = parent.rootFace.getD pid
      · rw [if_pos hidr] at hfaces
        rw [← Option.some.inj hfaces] at hroot
        rw [hrootbase] at hroot
        exact Option.noConfusion hroot
      · rw [if_neg hidr] at hfaces
        obtain ⟨rf, hrf, hbase⟩ := hrb id f r2 hfaces hroot
        have hr2lt : r2 < h.nextFaceId := heap_live_id_lt h r2 rf hrf hwf
        by_cases hr2root : r2 = parent.rootFace.getD pid
        · subst hr2root
          rw [hr] at hrf
          refine ⟨{ root with retainCount := root.retainCount + 1 }, ?_, ?_⟩
          · rw [deriveCore_faces, if_neg (by omega), if_pos rfl]
          · rw [show ({ root with retainCount := root.retainCount + 1 }
                : SFace).rootFace = root.rootFace from rfl]
            rw [← Option.some.inj hrf] at hbase
            exact hbase
        · refine ⟨rf, ?_, hbase⟩
          rw [deriveCore_faces, if_neg (by omega), if_neg hr2root]
          exact hrf

theorem applyOp_preserves (h : SFHeap) (op : SFOp)
    (hwf : h.WF) (hrb : h.RootsAreBase) :
    (h.applyOp op).WF ∧ (h.applyOp op).RootsAreBase := by
  cases op with
  | createOp rid => exact createFace_preserves h rid hwf hrb
  | deriveOp pid rid =>
    cases hp : h.faces pid with
    | none =>
      have hd : h.deriveVariation pid rid = none := by
        simp [SFHeap.deriveVariation, hp]
      rw [show h.applyOp (SFOp.deriveOp pid rid)
          = match h.deriveVariation pid rid with
            | none => h
            | some res => res.1 from rfl, hd]
      exact ⟨hwf, hrb⟩
    | some parent =>
      cases hr : h.faces (parent.rootFace.getD pid) with
      | none =>
        have hd : h.deriveVariation pid rid = none := by
          simp [SFHeap.deriveVariation, hp, hr]
        rw [show h.applyOp (SFOp.deriveOp pid rid)
            = match h.deriveVariation pid rid with
              | none => h
              | some res => res.1 from rfl, hd]
        exact ⟨hwf, hrb⟩
      | some root =>
        have hd : h.deriveVariation pid rid
            = some (h.deriveCore (parent.rootFace.getD pid) rid root) := by
          simp [SFHeap.deriveVariation, hp, hr]
        rw [show h.applyOp (SFOp.deriveOp pid rid)
            = match h.deriveVariation pid rid with
              | none => h
              | some res => res.1 from rfl, hd]
        exact deriveCore_preserves h pid rid parent root hp hr hwf hrb

theorem run_invariant (ops : List SFOp) :
    ∀ h : SFHeap, h.WF → h.RootsAreBase →
      (List.foldl SFHeap.applyOp h ops).WF
      ∧ (List.foldl SFHeap.applyOp h ops).RootsAreBase := by
  induction ops with
  | nil => exact fun h hwf hrb => ⟨hwf, hrb⟩
  | cons op rest ih =>
    intro h hwf hrb
    rw [List.foldl_cons]
    obtain ⟨hwf2, hrb2⟩ := applyOp_preserves h op hwf hrb
    exact ih (h.applyOp op) hwf2 hrb2

/-- C10: any sequence of ShapableFace constructions and derivations,
starting from nothing, yields a heap in which every stored root reference
points at a face whose own root pointer is null — root chains never exceed
depth one, because deriving from an already-derived face links the new
sub-face directly to the original root. -/
theorem shapableFace_root_depth_one (ops : List SFOp) :
    (SFHeap.run ops).RootsAreBase := by
  refine (run_invariant ops SFHeap.emptyHeap ?_ ?_).2
  · intro id _
    rfl
  · intro id f r2 hf _
    exact Option.noConfusion hf

end Tehreer
